import Mathlib

/-!
Verification of the video file browser (src/filebrowser.go).

The program is a small web front-end over a cloud object-storage bucket:
it lists bucket objects, sorts them by update time, filters for `.mp4`
videos, strips the suffix for display, and produces 6-hour signed URLs.

Shallow embedding conventions:
* Go strings are byte sequences; we model them as `GoStr := List Nat`
  (each entry a byte value).  Go's string comparison (`<`, `>`) is
  bytewise lexicographic, which coincides with the `LinearOrder` on
  `List Nat` (lexicographic on `Nat`).
* Fallible Go calls returning `(value, error)` where the value is a nil
  pointer exactly when the error is non-nil are modelled as
  `Except GoStr value`.
* Mutation of the shared `SignedURLOptions` is modelled by explicit state
  passing: `SignUrl` returns the options object as it stands after the
  call.
* Log output is modelled as a list of structured `LogEntry` values, one
  constructor per log site in the source.
-/

/-- A Go string, as its byte sequence.  The `LinearOrder` on `List Nat`
(lexicographic) coincides with Go's bytewise string comparison. -/
abbrev GoStr : Type := List Nat

/-- The byte sequence of the constant `bucketName = "bucket.gmbuell.com"`
(src/filebrowser.go line 25). -/
def bucketName : GoStr := "bucket.gmbuell.com".data.map (fun c => c.toNat)

/-- The byte sequence of the literal `".mp4"` used by `FilterVideos` and
`CleanupName` (src/filebrowser.go lines 75 and 83). -/
def mp4Suffix : GoStr := ".mp4".data.map (fun c => c.toNat)

/-- A bucket object (`storage.Object`), restricted to the fields the
program reads: `Name` and `Updated` (an RFC3339 timestamp string). -/
structure Object where
  name : GoStr
  updated : GoStr
deriving DecidableEq

/-- `strings.HasSuffix(s, suffix)`: whether `suffix` is a suffix of `s`. -/
def hasSuffixGo (s suffix : GoStr) : Bool := List.isSuffixOf suffix s

/-- `strings.TrimSuffix(s, suffix)`: drop one trailing occurrence of
`suffix` from `s` if present, else return `s` unchanged. -/
def trimSuffixGo (s suffix : GoStr) : GoStr :=
  if hasSuffixGo s suffix then List.take (List.length s - List.length suffix) s else s

/-- `FilterVideos` (src/filebrowser.go lines 72-80): a loop appending to a
fresh slice each object whose name ends in `".mp4"`. -/
def FilterVideos (objectList : List Object) : List Object :=
  objectList.foldl
    (fun videoObjects object =>
      if hasSuffixGo object.name mp4Suffix then videoObjects ++ [object] else videoObjects)
    []

/-- `CleanupName` (src/filebrowser.go lines 82-84):
`strings.TrimSuffix(objectName, ".mp4")`. -/
def CleanupName (objectName : GoStr) : GoStr := trimSuffixGo objectName mp4Suffix

/-- `ByUpdated.Less(i, j)` (src/filebrowser.go line 54):
`a[i].Updated > a[j].Updated`, Go string `>` being bytewise lexicographic. -/
def ByUpdatedLess (x y : Object) : Bool := decide (y.updated < x.updated)

/-- The (non-strict) order the sort arranges: `x` may precede `y` exactly
when `ByUpdated.Less` does not demand `y` before `x`. -/
def SortOrder (x y : Object) : Prop := ByUpdatedLess y x = false

instance : DecidableRel SortOrder := fun x y => Bool.decEq (ByUpdatedLess y x) false

theorem sortOrder_iff (x y : Object) : SortOrder x y ↔ y.updated ≤ x.updated := by
  unfold SortOrder ByUpdatedLess
  rw [decide_eq_false_iff_not, not_lt]

instance : IsTotal Object SortOrder :=
  ⟨fun x y => by
    rw [sortOrder_iff, sortOrder_iff]
    exact le_total y.updated x.updated⟩

instance : IsTrans Object SortOrder :=
  ⟨fun x y z hxy hyz => by
    rw [sortOrder_iff] at hxy hyz ⊢
    exact le_trans hyz hxy⟩

/-- Modelled from the spec: `SortByUpdated`.  The list handler sorts with
`sort.Sort(ByUpdated(res.Items))` (src/filebrowser.go line 97); the
comparator `ByUpdated.Less` is in src/ (lines 50-54) but the sorting
algorithm itself is Go standard-library code, not part of this
repository.  Per the spec (`SortByUpdated`: descending by `updated`,
ties broken by stable input order) the algorithm is modelled as a stable
comparison sort -- insertion sort driven by the source comparator. -/
def SortByUpdated (objects : List Object) : List Object :=
  List.insertionSort SortOrder objects

/-- Whether `url.QueryEscape` leaves the byte `b` unescaped: ASCII
alphanumerics and `-`, `.`, `_`, `~` (net/url `shouldEscape`). -/
def unreservedByte (b : Nat) : Bool :=
  (48 ≤ b && b ≤ 57) || (65 ≤ b && b ≤ 90) || (97 ≤ b && b ≤ 122) ||
    b == 45 || b == 46 || b == 95 || b == 126

/-- Uppercase hex digit byte for a nibble: `0`-`9` then `A`-`F`. -/
def upperHexDigit (n : Nat) : Nat := if n < 10 then 48 + n else 55 + n

/-- How `url.QueryEscape` renders one byte: unreserved bytes are copied,
a space (32) becomes `+` (43), every other byte becomes `%XX` with
uppercase hex digits. -/
def escapeByte (b : Nat) : GoStr :=
  if unreservedByte b then [b]
  else if b == 32 then [43]
  else [37, upperHexDigit (b / 16), upperHexDigit (b % 16)]

/-- `url.QueryEscape` (src/filebrowser.go line 58): each byte of the input
escaped in sequence. -/
def queryEscape : GoStr → GoStr
  | [] => []
  | b :: rest => escapeByte b ++ queryEscape rest

/-- `strings.Replace(s, "+", "%20", -1)` (src/filebrowser.go line 59):
every `+` byte (43) becomes the three bytes `%20` (37, 50, 48); the
pattern is a single byte, so occurrences cannot overlap. -/
def replacePlusWithPct20 : GoStr → GoStr
  | [] => []
  | b :: rest => (if b == 43 then [37, 50, 48] else [b]) ++ replacePlusWithPct20 rest

/-- The escaped object name `SignUrl` embeds in the URL
(src/filebrowser.go lines 58-59). -/
def escapeObjectName (objectName : GoStr) : GoStr :=
  replacePlusWithPct20 (queryEscape objectName)

/-- `cloud.SignedURLOptions`, restricted to the fields the program sets
(src/filebrowser.go lines 57, 165-169). `expires` is a timestamp in
seconds. -/
structure SignedURLOptions where
  googleAccessID : GoStr
  privateKey : GoStr
  method : GoStr
  expires : Nat
deriving DecidableEq

/-- One structured log line, one constructor per `log.WithFields(...).Warn`
site in the source, carrying the fields logged there. -/
inductive LogEntry
  | warnErrorSigningURL (objectName : GoStr) (internalError : GoStr)
  | warnFailedGettingVideoList (internalError : GoStr)
  | warnFailedGettingVideoInfo (objectName : GoStr) (internalError : GoStr)
deriving DecidableEq

/-- What a call to `SignUrl` produces: the returned URL string, the shared
options object as it stands after the call (the call assigns its
`Expires` field), and the log lines emitted. -/
structure SignUrlResult where
  url : GoStr
  opts : SignedURLOptions
  logs : List LogEntry
deriving DecidableEq

/-- `time.Second * 60 * 60 * 6` (src/filebrowser.go line 57), in seconds. -/
def sixHours : Nat := 60 * 60 * 6

/-- `Server.SignUrl` (src/filebrowser.go lines 56-70).  `cloudSignedURL`
stands for the external `cloud.SignedURL(bucket, name, opts)` call
(success yields the URL, failure an error); `now` is `time.Now()` in
seconds.  The function first assigns `s.StorageAccessOptions.Expires`,
escapes the name, then returns the signed URL on success and the empty
string on failure (logging the failure); no error propagates. -/
def SignUrl (cloudSignedURL : GoStr → GoStr → SignedURLOptions → Except GoStr GoStr)
    (now : Nat) (opts : SignedURLOptions) (objectName : GoStr) : SignUrlResult :=
  let optsAfter := { opts with expires := now + sixHours }
  let escapedName := escapeObjectName objectName
  match cloudSignedURL bucketName escapedName optsAfter with
  | .ok getURL => { url := getURL, opts := optsAfter, logs := [] }
  | .error err =>
      { url := [], opts := optsAfter,
        logs := [.warnErrorSigningURL objectName err] }

/-- `res` of `Objects.List(bucketName).Do()`: the program only reads
`res.Items`. -/
structure ObjectsListResult where
  items : List Object
deriving DecidableEq

/-- The template name passed to `ExecuteTemplate`: `"index.html"` or
`"play.html"`. -/
inductive TemplateName
  | index
  | play
deriving DecidableEq

/-- How a handler invocation ends: it renders the named template with the
given data (`none` models a nil pointer passed to the template engine,
which renders without the data rather than panicking), or the goroutine
panics (a nil-pointer dereference in the handler itself). -/
inductive HandlerOutcome (α : Type)
  | rendered (template : TemplateName) (data : α)
  | panicked
deriving DecidableEq

/-- `Server.RootHandler` (src/filebrowser.go lines 86-100), as a function
of the outcome of the `Objects.List(bucketName).Do()` call.  On error the
Go client returns a nil `res` and the handler only logs a warning and
continues; evaluating `res.Items` in `sort.Sort(ByUpdated(res.Items))`
then dereferences the nil pointer and panics.  On success the items are
sorted in place and `res` is handed to the `index.html` template. -/
def RootHandler (listResult : Except GoStr ObjectsListResult) :
    List LogEntry × HandlerOutcome (Option (List Object)) :=
  match listResult with
  | .ok res => ([], .rendered .index (some (SortByUpdated res.items)))
  | .error err => ([.warnFailedGettingVideoList err], .panicked)

/-- `Server.PlayHandler` (src/filebrowser.go lines 102-117), as a function
of the object name extracted from the route and the outcome of
`Objects.Get(bucketName, objectName).Do()`.  On error the handler logs a
warning and still calls `ExecuteTemplate` with the nil `res`; the
template engine renders without the data (it reports, not panics, on a
nil field access), so the request completes either way. -/
def PlayHandler (objectName : GoStr) (getResult : Except GoStr Object) :
    List LogEntry × HandlerOutcome (Option Object) :=
  match getResult with
  | .ok res => ([], .rendered .play (some res))
  | .error err => ([.warnFailedGettingVideoInfo objectName err], .rendered .play none)

/-! ## Helper lemmas -/

theorem filterVideos_foldl (l : List Object) (acc : List Object) :
    l.foldl
        (fun videoObjects object =>
          if hasSuffixGo object.name mp4Suffix then videoObjects ++ [object] else videoObjects)
        acc =
      acc ++ l.filter (fun o => hasSuffixGo o.name mp4Suffix) := by
  induction l generalizing acc with
  | nil => simp
  | cons x xs ih =>
    simp only [List.foldl_cons, List.filter_cons]
    by_cases h : hasSuffixGo x.name mp4Suffix = true
    · rw [if_pos h, if_pos h, ih, List.append_assoc]
      rfl
    · rw [if_neg h, if_neg h, ih]

theorem queryEscape_append (a b : GoStr) :
    queryEscape (a ++ b) = queryEscape a ++ queryEscape b := by
  induction a with
  | nil => rfl
  | cons x xs ih => simp [queryEscape, ih]

theorem replacePlus_append (a b : GoStr) :
    replacePlusWithPct20 (a ++ b) = replacePlusWithPct20 a ++ replacePlusWithPct20 b := by
  induction a with
  | nil => rfl
  | cons x xs ih => simp [replacePlusWithPct20, ih]

theorem escapeObjectName_append (a b : GoStr) :
    escapeObjectName (a ++ b) = escapeObjectName a ++ escapeObjectName b := by
  unfold escapeObjectName
  rw [queryEscape_append, replacePlus_append]

theorem escapeObjectName_space : escapeObjectName [32] = [37, 50, 48] := by decide

theorem escapeObjectName_plusByte : escapeObjectName [43] = [37, 50, 66] := by decide

theorem escapeObjectName_middle (u v : GoStr) (b : Nat) :
    escapeObjectName (u ++ b :: v) =
      escapeObjectName u ++ escapeObjectName [b] ++ escapeObjectName v := by
  have h : u ++ b :: v = (u ++ [b]) ++ v := by simp
  rw [h, escapeObjectName_append, escapeObjectName_append]

theorem plus_not_mem_replacePlus (s : GoStr) : 43 ∉ replacePlusWithPct20 s := by
  induction s with
  | nil => simp [replacePlusWithPct20]
  | cons b rest ih =>
    by_cases hb : b = 43
    · simp [replacePlusWithPct20, hb, ih]
    · simp [replacePlusWithPct20, hb, ih]
      omega

theorem upperHexDigit_ne_plus (n : Nat) : upperHexDigit n ≠ 43 := by
  unfold upperHexDigit
  split <;> omega

theorem filter_orderedInsert_of_neg (p : Object → Bool) (a : Object) (l : List Object)
    (ha : p a = false) :
    (List.orderedInsert SortOrder a l).filter p = l.filter p := by
  induction l with
  | nil => simp [List.orderedInsert, ha]
  | cons b bs ih =>
    simp only [List.orderedInsert]
    split
    · simp [List.filter_cons, ha]
    · simp [List.filter_cons, ih]

theorem filter_orderedInsert_of_key (k : GoStr) (a : Object) (l : List Object)
    (ha : a.updated = k) :
    (List.orderedInsert SortOrder a l).filter (fun o => decide (o.updated = k)) =
      a :: l.filter (fun o => decide (o.updated = k)) := by
  induction l with
  | nil => simp [List.orderedInsert, ha]
  | cons b bs ih =>
    simp only [List.orderedInsert]
    split
    · simp [List.filter_cons, ha]
    · next hab =>
      have hbk : ¬ b.updated = k := by
        intro hb
        have hlt : a.updated < b.updated := by
          have hiff := sortOrder_iff a b
          exact lt_of_not_le (fun hle => hab (hiff.mpr hle))
        rw [ha, hb] at hlt
        exact lt_irrefl k hlt
      simp [List.filter_cons, hbk, ih]

theorem sortByUpdated_stable_filter (l : List Object) (k : GoStr) :
    (SortByUpdated l).filter (fun o => decide (o.updated = k)) =
      l.filter (fun o => decide (o.updated = k)) := by
  induction l with
  | nil => rfl
  | cons x xs ih =>
    unfold SortByUpdated at ih ⊢
    simp only [List.insertionSort]
    by_cases hx : x.updated = k
    · rw [filter_orderedInsert_of_key k x _ hx, ih, List.filter_cons, if_pos (by simp [hx])]
    · rw [filter_orderedInsert_of_neg _ x _ (by simp [hx]), ih, List.filter_cons,
        if_neg (by simp [hx])]

/-! ## Claim theorems -/

/-- C1: for every sequence of bucket objects, `SortByUpdated` (the
ordering the list handler applies before rendering) is a permutation of
the input, non-increasing in `updated` (most recently updated first),
and stable: for every timestamp value, the objects carrying it keep
their input order (their filtered subsequence is unchanged). -/
theorem C1_SortByUpdated_perm_desc_stable (objects : List Object) :
    (SortByUpdated objects).Perm objects ∧
    (SortByUpdated objects).Pairwise (fun x y => y.updated ≤ x.updated) ∧
    ∀ k : GoStr,
      (SortByUpdated objects).filter (fun o => decide (o.updated = k)) =
        objects.filter (fun o => decide (o.updated = k)) := by
  refine ⟨List.perm_insertionSort SortOrder objects, ?_,
    fun k => sortByUpdated_stable_filter objects k⟩
  exact (List.sorted_insertionSort SortOrder objects).imp
    (fun {a b} h => (sortOrder_iff a b).mp h)

/-- C6: `FilterVideos` returns exactly the subsequence of its input whose
names end in `".mp4"`: it equals the order-preserving filter, is a
sublist (subsequence) of the input, has length at most the input's, and
every returned object's name has the `".mp4"` suffix.  It is a pure
function of the input list. -/
theorem C6_FilterVideos_exact_subsequence (objectList : List Object) :
    FilterVideos objectList = objectList.filter (fun o => hasSuffixGo o.name mp4Suffix) ∧
    (FilterVideos objectList).Sublist objectList ∧
    (FilterVideos objectList).length ≤ objectList.length ∧
    ∀ o ∈ FilterVideos objectList, hasSuffixGo o.name mp4Suffix = true := by
  have hfil : FilterVideos objectList =
      objectList.filter (fun o => hasSuffixGo o.name mp4Suffix) := by
    unfold FilterVideos
    rw [filterVideos_foldl objectList []]
    rfl
  refine ⟨hfil, ?_, ?_, ?_⟩
  · rw [hfil]; exact List.filter_sublist objectList
  · rw [hfil]; exact (List.filter_sublist objectList).length_le
  · intro o ho
    rw [hfil] at ho
    exact (List.mem_filter.mp ho).2

/-- C7: `CleanupName` removes exactly one trailing `".mp4"`: for a name
with no trailing `".mp4"`, appending the suffix and cleaning returns the
name, and cleaning the suffix-free name itself is the identity. -/
theorem C7_CleanupName_strips_one_mp4 (name : GoStr) :
    (hasSuffixGo name mp4Suffix = false → CleanupName (name ++ mp4Suffix) = name) ∧
    (hasSuffixGo name mp4Suffix = false → CleanupName name = name) := by
  constructor
  · intro _
    unfold CleanupName trimSuffixGo
    have hsuf : hasSuffixGo (name ++ mp4Suffix) mp4Suffix = true := by
      unfold hasSuffixGo
      exact List.isSuffixOf_iff_suffix.mpr (List.suffix_append name mp4Suffix)
    rw [if_pos hsuf]
    have hlen : List.length (name ++ mp4Suffix) - List.length mp4Suffix =
        List.length name := by
      rw [List.length_append]
      omega
    rw [hlen]
    exact List.take_left name mp4Suffix
  · intro h
    unfold CleanupName trimSuffixGo
    rw [if_neg (by simp [h])]

/-- C7 witness: the name `"a"` (byte 97) does not end in `".mp4"`;
cleaning `"a.mp4"` yields `"a"` and cleaning `"a"` is the identity. -/
theorem C7_witness :
    hasSuffixGo [97] mp4Suffix = false ∧
    CleanupName ([97] ++ mp4Suffix) = [97] ∧ CleanupName [97] = [97] :=
  ⟨by decide, (C7_CleanupName_strips_one_mp4 [97]).1 (by decide),
    (C7_CleanupName_strips_one_mp4 [97]).2 (by decide)⟩

/-- The signing configuration built at startup (src/filebrowser.go lines
165-169) with empty credentials and `Method = "GET"` (bytes 71, 69, 84),
used as a concrete input below. -/
def startupOptions : SignedURLOptions :=
  { googleAccessID := [], privateKey := [], method := [71, 69, 84], expires := 0 }

/-- A signer that always succeeds with an empty URL, used as a concrete
stand-in for `cloud.SignedURL` below. -/
def trivialSigner : GoStr → GoStr → SignedURLOptions → Except GoStr GoStr :=
  fun _ _ _ => Except.ok []

/-- C2 counterexample: the claim that every field of the shared signing
configuration is unchanged by a `SignUrl` call fails at a concrete
input: calling `SignUrl` at time 0 on the startup configuration changes
its `Expires` field (line 57 of the source assigns
`s.StorageAccessOptions.Expires`). -/
theorem C2_counterexample_SignUrl_mutates_options :
    ¬ (SignUrl trivialSigner 0 startupOptions []).opts = startupOptions := by
  decide

/-- C2 amended: a `SignUrl` call leaves the `GoogleAccessID`,
`PrivateKey` and `Method` fields of the shared signing configuration
unchanged, but always mutates its `Expires` field, setting it to six
hours after the call; `FilterVideos` and `CleanupName` take no reference
to the configuration at all (they are functions of their list/string
argument only, as their types in this file show). -/
theorem C2_amended_SignUrl_mutates_only_expires
    (cloudSignedURL : GoStr → GoStr → SignedURLOptions → Except GoStr GoStr)
    (now : Nat) (opts : SignedURLOptions) (objectName : GoStr) :
    (SignUrl cloudSignedURL now opts objectName).opts.googleAccessID = opts.googleAccessID ∧
    (SignUrl cloudSignedURL now opts objectName).opts.privateKey = opts.privateKey ∧
    (SignUrl cloudSignedURL now opts objectName).opts.method = opts.method ∧
    (SignUrl cloudSignedURL now opts objectName).opts.expires = now + sixHours := by
  rcases h : cloudSignedURL bucketName (escapeObjectName objectName)
      { opts with expires := now + sixHours } with err | getURL <;>
    simp [SignUrl, h]

/-- C3: the claim says the list handler, when the storage list call
fails, still renders the listing page with the (nil) result.  The code
instead panics: it logs the warning but then evaluates `res.Items` on
the nil `res` at `sort.Sort(ByUpdated(res.Items))` (src/filebrowser.go
line 97), a nil-pointer dereference.  This theorem evaluates the
handler at a failing input. -/
theorem C3_RootHandler_panics_on_list_failure (err : GoStr) :
    RootHandler (Except.error err) =
      ([LogEntry.warnFailedGettingVideoList err], HandlerOutcome.panicked) := rfl

/-- C4: `SignUrl` returns exactly the URL the signing computation
produces when it succeeds, and the empty string when it fails; its
return type carries no error, so no error propagates to the caller
(the failure is logged instead). -/
theorem C4_SignUrl_empty_on_failure_url_on_success
    (cloudSignedURL : GoStr → GoStr → SignedURLOptions → Except GoStr GoStr)
    (now : Nat) (opts : SignedURLOptions) (objectName : GoStr) :
    (∀ getURL,
      cloudSignedURL bucketName (escapeObjectName objectName)
          { opts with expires := now + sixHours } = Except.ok getURL →
        (SignUrl cloudSignedURL now opts objectName).url = getURL) ∧
    (∀ err,
      cloudSignedURL bucketName (escapeObjectName objectName)
          { opts with expires := now + sixHours } = Except.error err →
        (SignUrl cloudSignedURL now opts objectName).url = [] ∧
        (SignUrl cloudSignedURL now opts objectName).logs =
          [LogEntry.warnErrorSigningURL objectName err]) := by
  constructor
  · intro getURL h
    simp [SignUrl, h]
  · intro err h
    simp [SignUrl, h]

/-- C4 witness: at a signer that succeeds with URL `"h"` (byte 104) the
result is that URL; at a signer that fails the result is the empty
string and the failure is logged. -/
theorem C4_witness :
    (SignUrl (fun _ _ _ => Except.ok [104]) 0 startupOptions []).url = [104] ∧
    (SignUrl (fun _ _ _ => Except.error [101]) 0 startupOptions []).url = [] :=
  ⟨(C4_SignUrl_empty_on_failure_url_on_success
      (fun _ _ _ => Except.ok [104]) 0 startupOptions []).1 [104] rfl,
    ((C4_SignUrl_empty_on_failure_url_on_success
      (fun _ _ _ => Except.error [101]) 0 startupOptions []).2 [101] rfl).1⟩

/-- C5: the escaped name `SignUrl` embeds contains no literal `+`
(byte 43), and every space (byte 32) of the object name appears in the
escaped name as the three bytes `%20` (37, 50, 48). -/
theorem C5_escaped_name_plus_free_space_as_pct20 :
    (∀ objectName : GoStr, 43 ∉ escapeObjectName objectName) ∧
    ∀ u v : GoStr,
      escapeObjectName (u ++ 32 :: v) =
        escapeObjectName u ++ 37 :: 50 :: 48 :: escapeObjectName v := by
  constructor
  · intro objectName
    exact plus_not_mem_replacePlus (queryEscape objectName)
  · intro u v
    rw [escapeObjectName_middle u v 32, escapeObjectName_space]
    simp

/-- C8: the expiration timestamp `SignUrl` installs in the signing
options -- the options passed on to the signed-URL computation -- is
exactly `60 * 60 * 6` seconds (six hours) after the time of the call. -/
theorem C8_SignUrl_expires_six_hours_after_call
    (cloudSignedURL : GoStr → GoStr → SignedURLOptions → Except GoStr GoStr)
    (now : Nat) (opts : SignedURLOptions) (objectName : GoStr) :
    (SignUrl cloudSignedURL now opts objectName).opts.expires = now + 60 * 60 * 6 := by
  rcases h : cloudSignedURL bucketName (escapeObjectName objectName)
      { opts with expires := now + sixHours } with err | getURL <;>
    simp [SignUrl, h] <;> rfl

/-- C9: the play handler, when the metadata fetch for the named object
fails, logs the failure (object name and error) and still renders the
playback page with an empty result; it completes (renders rather than
panics) for every such request. -/
theorem C9_PlayHandler_renders_on_get_failure (objectName err : GoStr) :
    PlayHandler objectName (Except.error err) =
      ([LogEntry.warnFailedGettingVideoInfo objectName err],
        HandlerOutcome.rendered TemplateName.play none) := rfl

/-- C10: the escaping distinguishes a literal `+` from a space: a `+`
(byte 43) in the object name becomes `%2B` (37, 50, 66) in the escaped
name, the post-escaping `+`-to-`%20` replacement is the identity on the
escape of every non-space byte, and two names differing only in `+`
versus space escape to different strings. -/
theorem C10_plus_and_space_escape_differently :
    (∀ u v : GoStr,
      escapeObjectName (u ++ 43 :: v) =
        escapeObjectName u ++ 37 :: 50 :: 66 :: escapeObjectName v) ∧
    (∀ b : Nat, b ≠ 32 → replacePlusWithPct20 (escapeByte b) = escapeByte b) ∧
    ∀ u v : GoStr, escapeObjectName (u ++ 43 :: v) ≠ escapeObjectName (u ++ 32 :: v) := by
  refine ⟨?_, ?_, ?_⟩
  · intro u v
    rw [escapeObjectName_middle u v 43, escapeObjectName_plusByte]
    simp
  · intro b hb
    unfold escapeByte
    by_cases hu : unreservedByte b = true
    · rw [if_pos hu]
      have hb43 : ¬ b = 43 := by
        simp [unreservedByte] at hu
        omega
      simp [replacePlusWithPct20, hb43]
    · rw [if_neg hu, if_neg (by simp [hb])]
      have h1 := upperHexDigit_ne_plus (b / 16)
      have h2 := upperHexDigit_ne_plus (b % 16)
      simp [replacePlusWithPct20, h1, h2]
  · intro u v h
    rw [escapeObjectName_middle u v 43, escapeObjectName_plusByte,
      escapeObjectName_middle u v 32, escapeObjectName_space] at h
    simp at h

/-- C10 witness: the byte `"a"` (97) is not a space and its escape is
untouched by the `+` replacement. -/
theorem C10_witness : replacePlusWithPct20 (escapeByte 97) = escapeByte 97 :=
  C10_plus_and_space_escape_differently.2.1 97 (by decide)
